import Mathlib

/-!
Shallow embedding of the `LogAnalyzer` streaming engine of `app.py`
(`analyze_line` / `analyze_file`) over `List Char`, together with proofs of
the specification's claims about it.

Lines are lists of characters.  The three classification regexes and the
IPv4-shaped address extractor of the source are compiled to executable
matchers with Python `re.search` semantics (leftmost match, `.` excludes the
newline, `$` also matches just before a final newline via `\s*` absorbing it,
`\b` is the ASCII word-boundary test).
-/

set_option autoImplicit false
set_option maxRecDepth 8192

namespace LogfileAnalyzer

/-- ASCII model of the regex class `\s` (also used for `str.strip`). -/
def isSpaceChar (c : Char) : Bool :=
  c = ' ' || c = '\t' || c = '\n' || c = '\r' || c = '\x0b' || c = '\x0c'

/-- ASCII model of the regex class `\w`, used by the `\b` word-boundary test. -/
def isWordChar (c : Char) : Bool :=
  c.isAlphanum || c = '_'

/-- Case folding used to model the `(?i)` flag (ASCII). -/
def lowerL (cs : List Char) : List Char :=
  cs.map Char.toLower

/-- Python `str.strip()`: drop whitespace at both ends. -/
def stripList (cs : List Char) : List Char :=
  ((cs.dropWhile isSpaceChar).reverse.dropWhile isSpaceChar).reverse

/-- Consume the literal `p` at the head of `cs`, returning the rest. -/
def chopLit : List Char → List Char → Option (List Char)
  | [], cs => some cs
  | _ :: _, [] => none
  | p :: ps, c :: cs => if p = c then chopLit ps cs else none

/-- Occurrence of the literal `p` anywhere in `cs` (`re.search` of a literal). -/
def containsLit (p : List Char) : List Char → Bool
  | [] => (chopLit p []).isSome
  | c :: cs => (chopLit p (c :: cs)).isSome || containsLit p cs

/-- `\s+` then the literal `p`.  Maximal munch of the whitespace run is
faithful to backtracking because every `p` used starts with a non-space. -/
def gapThen (p : List Char) (cs : List Char) : Bool :=
  !(cs.takeWhile isSpaceChar).isEmpty && (chopLit p (cs.dropWhile isSpaceChar)).isSome

/-- `.*` then the literal `p`, where `.` does not match a newline. -/
def dotStarThen (p : List Char) : List Char → Bool
  | [] => (chopLit p []).isSome
  | c :: cs => (chopLit p (c :: cs)).isSome || (!(c = '\n') && dotStarThen p cs)

def uStr : List Char := "union".toList
def sStr : List Char := "select".toList
def fStr : List Char := "from".toList
def dStr : List Char := "drop".toList
def tStr : List Char := "table".toList
def dashStr : List Char := "--".toList

/-- One position of the SQL-injection regex
`(?i)(union\s+select|select.*from|drop\s+table|--\s*$)`:
does some alternative match starting exactly here? -/
def sqlHit (cs : List Char) : Bool :=
  (match chopLit uStr cs with | some r => gapThen sStr r | none => false) ||
  (match chopLit sStr cs with | some r => dotStarThen fStr r | none => false) ||
  (match chopLit dStr cs with | some r => gapThen tStr r | none => false) ||
  (match chopLit dashStr cs with | some r => r.all isSpaceChar | none => false)

/-- `re.search`: try every start position, the end-of-string position included. -/
def scanPos (f : List Char → Bool) : List Char → Bool
  | [] => f []
  | c :: cs => f (c :: cs) || scanPos f cs

/-- The SQL-injection check of `analyze_line` (line 53 of `app.py`). -/
def sqlMatch (line : List Char) : Bool :=
  scanPos sqlHit (lowerL line)

/-- The XSS check of `analyze_line` (line 62 of `app.py`):
`(?i)(<script>|alert\(|onload=|onerror=|javascript:)`. -/
def xssMatch (line : List Char) : Bool :=
  containsLit "<script>".toList (lowerL line) ||
  containsLit "alert(".toList (lowerL line) ||
  containsLit "onload=".toList (lowerL line) ||
  containsLit "onerror=".toList (lowerL line) ||
  containsLit "javascript:".toList (lowerL line)

/-- The brute-force check of `analyze_line` (line 81 of `app.py`):
`(?i)(failed login|authentication failure|invalid password)`. -/
def bruteMatch (line : List Char) : Bool :=
  containsLit "failed login".toList (lowerL line) ||
  containsLit "authentication failure".toList (lowerL line) ||
  containsLit "invalid password".toList (lowerL line)

/-- One group `\d{1,3}\.` of the address regex.  The digit group matches iff
the maximal digit run here has length 1–3 and is followed by a dot (taking a
shorter slice of a longer run leaves a digit, not a dot, so backtracking
cannot help). -/
def groupDot (cs : List Char) : Option (List Char × List Char) :=
  match cs.dropWhile Char.isDigit with
  | '.' :: r =>
    if 1 ≤ (cs.takeWhile Char.isDigit).length ∧
        (cs.takeWhile Char.isDigit).length ≤ 3 then
      some (cs.takeWhile Char.isDigit, r)
    else none
  | _ => none

/-- The final `\d{1,3}\b` of the address regex: a 1–3 digit run followed by a
non-word character or the end of the line. -/
def lastGroup (cs : List Char) : Option (List Char) :=
  if 1 ≤ (cs.takeWhile Char.isDigit).length ∧
      (cs.takeWhile Char.isDigit).length ≤ 3 then
    match cs.dropWhile Char.isDigit with
    | [] => some (cs.takeWhile Char.isDigit)
    | c :: _ => if isWordChar c then none else some (cs.takeWhile Char.isDigit)
  else none

/-- Match `(?:\d{1,3}\.){3}\d{1,3}\b` at the start of `cs` (the leading `\b`
is the caller's responsibility), returning the matched token. -/
def ipAt (cs : List Char) : Option (List Char) :=
  match groupDot cs with
  | none => none
  | some (g1, r1) =>
    match groupDot r1 with
    | none => none
    | some (g2, r2) =>
      match groupDot r2 with
      | none => none
      | some (g3, r3) =>
        match lastGroup r3 with
        | none => none
        | some g4 => some (g1 ++ '.' :: (g2 ++ '.' :: (g3 ++ '.' :: g4)))

/-- Leftmost search for the address regex; `prev` is the character before the
current position, used for the leading `\b` (the match must start with a
digit, a word character, so the boundary holds iff `prev` is absent or
non-word). -/
def ipSearch : Option Char → List Char → Option (List Char)
  | _, [] => none
  | prev, c :: cs =>
    if (match prev with | none => true | some p => !isWordChar p) then
      match ipAt (c :: cs) with
      | some a => some a
      | none => ipSearch (some c) cs
    else ipSearch (some c) cs

/-- `re.search(r'\b(?:\d{1,3}\.){3}\d{1,3}\b', line)` (line 45 of `app.py`). -/
def findIP (line : List Char) : Option (List Char) :=
  ipSearch none line

/-- An entry of the `sql_injection` / `xss` / `brute_force` lists. -/
structure Event where
  line : Nat
  ip : Option (List Char)
  content : List Char
deriving DecidableEq

/-- An entry of the `ddos` list (carries a count instead of content; its `ip`
is never null because the branch is guarded by `if ip`). -/
structure DEvent where
  line : Nat
  ip : List Char
  count : Nat
deriving DecidableEq

/-- The mutable state of one `LogAnalyzer` instance: the `stats` counters,
`ip_frequency` (a `defaultdict(int)` in insertion order), the `unique_ips`
set (as a duplicate-free list) and the four attack lists. -/
structure AnalyzerState where
  total_attacks : Nat
  sql_injection_count : Nat
  xss_count : Nat
  ddos_count : Nat
  brute_force_count : Nat
  unique_ips : List (List Char)
  ip_frequency : List (List Char × Nat)
  sql_injection : List Event
  xss : List Event
  ddos : List DEvent
  brute_force : List Event
deriving DecidableEq

/-- `LogAnalyzer.__init__`. -/
def initState : AnalyzerState :=
  ⟨0, 0, 0, 0, 0, [], [], [], [], [], []⟩

/-- Read `ip_frequency[k]` (0 when absent, as for `defaultdict(int)`). -/
def freqGet : List (List Char × Nat) → List Char → Nat
  | [], _ => 0
  | (k', v) :: t, k => if k' = k then v else freqGet t k

/-- `ip_frequency[k] += 1`: bump the existing entry, or append a fresh one. -/
def freqInc : List (List Char × Nat) → List Char → List (List Char × Nat)
  | [], k => [(k, 1)]
  | (k', v) :: t, k => if k' = k then (k', v + 1) :: t else (k', v) :: freqInc t k

/-- `unique_ips.add(k)` on the set modelled as a duplicate-free list. -/
def addUnique (l : List (List Char)) (k : List Char) : List (List Char) :=
  if k ∈ l then l else l ++ [k]

/-- `any(attack['ip'] == ip for attack in self.attacks['ddos'])`. -/
def ddosHasIP (l : List DEvent) (ip : List Char) : Bool :=
  l.any (fun e => decide (e.ip = ip))

/-- Lines 48–50 of `app.py`: record the address and bump its frequency. -/
def stepIP (s : AnalyzerState) (ip : Option (List Char)) : AnalyzerState :=
  match ip with
  | some a => { s with unique_ips := addUnique s.unique_ips a,
                       ip_frequency := freqInc s.ip_frequency a }
  | none => s

/-- Lines 53–59 of `app.py`: the SQL-injection branch. -/
def stepSQL (s : AnalyzerState) (line : List Char) (n : Nat)
    (ip : Option (List Char)) : AnalyzerState :=
  if sqlMatch line then
    { s with sql_injection_count := s.sql_injection_count + 1,
             sql_injection := s.sql_injection ++ [⟨n, ip, stripList line⟩] }
  else s

/-- Lines 62–68 of `app.py`: the XSS branch. -/
def stepXSS (s : AnalyzerState) (line : List Char) (n : Nat)
    (ip : Option (List Char)) : AnalyzerState :=
  if xssMatch line then
    { s with xss_count := s.xss_count + 1,
             xss := s.xss ++ [⟨n, ip, stripList line⟩] }
  else s

/-- Lines 71–78 of `app.py`: the DDoS branch (the frequency it reads has
already been bumped by `stepIP`). -/
def stepDDoS (s : AnalyzerState) (n : Nat) (ip : Option (List Char)) :
    AnalyzerState :=
  match ip with
  | some a =>
    if 100 < freqGet s.ip_frequency a ∧ ddosHasIP s.ddos a = false then
      { s with ddos_count := s.ddos_count + 1,
               ddos := s.ddos ++ [⟨n, a, freqGet s.ip_frequency a⟩] }
    else s
  | none => s

/-- Lines 81–87 of `app.py`: the brute-force branch. -/
def stepBrute (s : AnalyzerState) (line : List Char) (n : Nat)
    (ip : Option (List Char)) : AnalyzerState :=
  if bruteMatch line then
    { s with brute_force_count := s.brute_force_count + 1,
             brute_force := s.brute_force ++ [⟨n, ip, stripList line⟩] }
  else s

/-- `LogAnalyzer.analyze_line(line, line_number)`, the five side effects in
the source's order. -/
def analyze_line (s : AnalyzerState) (line : List Char) (n : Nat) :
    AnalyzerState :=
  let ip := findIP line
  stepBrute (stepDDoS (stepXSS (stepSQL (stepIP s ip) line n ip) line n ip) n ip)
    line n ip

/-- The loop of `analyze_file`: feed the remaining lines, numbering from
`n + 1`. -/
def runFrom (s : AnalyzerState) (n : Nat) : List (List Char) → AnalyzerState
  | [] => s
  | l :: ls => runFrom (analyze_line s l (n + 1)) (n + 1) ls

/-- State of a fresh analyzer after the whole stream. -/
def runLines (ls : List (List Char)) : AnalyzerState :=
  runFrom initState 0 ls

/-- The `stats` sub-dictionary of the returned report. -/
structure Stats where
  total_attacks : Nat
  sql_injection_count : Nat
  xss_count : Nat
  ddos_count : Nat
  brute_force_count : Nat
  unique_ips : Nat
deriving DecidableEq

/-- The dictionary returned by `analyze_file` (lines 104–118 of `app.py`). -/
structure Report where
  stats : Stats
  ip_frequency : List (List Char × Nat)
  sql_injection : List Event
  xss : List Event
  ddos : List DEvent
  brute_force : List Event
deriving DecidableEq

/-- `LogAnalyzer.analyze_file` on an already-split stream of text lines:
run the loop, set `total_attacks` to the sum of the four counters, and
assemble the report. -/
def analyze_file (ls : List (List Char)) : Report :=
  let s0 := runLines ls
  let s : AnalyzerState :=
    { s0 with total_attacks := s0.sql_injection_count + s0.xss_count +
                                s0.ddos_count + s0.brute_force_count }
  { stats := { total_attacks := s.total_attacks,
               sql_injection_count := s.sql_injection_count,
               xss_count := s.xss_count,
               ddos_count := s.ddos_count,
               brute_force_count := s.brute_force_count,
               unique_ips := s.unique_ips.length },
    ip_frequency := s.ip_frequency,
    sql_injection := s.sql_injection,
    xss := s.xss,
    ddos := s.ddos,
    brute_force := s.brute_force }

/-! ### Field-action lemmas for the five side-effect steps -/

section StepLemmas

variable (s : AnalyzerState) (line : List Char) (n : Nat) (ip : Option (List Char))

@[simp] theorem stepIP_total : (stepIP s ip).total_attacks = s.total_attacks := by
  cases ip <;> rfl

@[simp] theorem stepIP_sqlc : (stepIP s ip).sql_injection_count = s.sql_injection_count := by
  cases ip <;> rfl

@[simp] theorem stepIP_xssc : (stepIP s ip).xss_count = s.xss_count := by
  cases ip <;> rfl

@[simp] theorem stepIP_ddosc : (stepIP s ip).ddos_count = s.ddos_count := by
  cases ip <;> rfl

@[simp] theorem stepIP_brutec : (stepIP s ip).brute_force_count = s.brute_force_count := by
  cases ip <;> rfl

@[simp] theorem stepIP_sql : (stepIP s ip).sql_injection = s.sql_injection := by
  cases ip <;> rfl

@[simp] theorem stepIP_xss : (stepIP s ip).xss = s.xss := by
  cases ip <;> rfl

@[simp] theorem stepIP_ddos : (stepIP s ip).ddos = s.ddos := by
  cases ip <;> rfl

@[simp] theorem stepIP_brute : (stepIP s ip).brute_force = s.brute_force := by
  cases ip <;> rfl

@[simp] theorem stepIP_unique : (stepIP s ip).unique_ips =
    match ip with
    | some a => addUnique s.unique_ips a
    | none => s.unique_ips := by
  cases ip <;> rfl

@[simp] theorem stepIP_freq : (stepIP s ip).ip_frequency =
    match ip with
    | some a => freqInc s.ip_frequency a
    | none => s.ip_frequency := by
  cases ip <;> rfl

@[simp] theorem stepSQL_total : (stepSQL s line n ip).total_attacks = s.total_attacks := by
  unfold stepSQL; split <;> rfl

@[simp] theorem stepSQL_xssc : (stepSQL s line n ip).xss_count = s.xss_count := by
  unfold stepSQL; split <;> rfl

@[simp] theorem stepSQL_ddosc : (stepSQL s line n ip).ddos_count = s.ddos_count := by
  unfold stepSQL; split <;> rfl

@[simp] theorem stepSQL_brutec : (stepSQL s line n ip).brute_force_count = s.brute_force_count := by
  unfold stepSQL; split <;> rfl

@[simp] theorem stepSQL_unique : (stepSQL s line n ip).unique_ips = s.unique_ips := by
  unfold stepSQL; split <;> rfl

@[simp] theorem stepSQL_freq : (stepSQL s line n ip).ip_frequency = s.ip_frequency := by
  unfold stepSQL; split <;> rfl

@[simp] theorem stepSQL_xss : (stepSQL s line n ip).xss = s.xss := by
  unfold stepSQL; split <;> rfl

@[simp] theorem stepSQL_ddos : (stepSQL s line n ip).ddos = s.ddos := by
  unfold stepSQL; split <;> rfl

@[simp] theorem stepSQL_brute : (stepSQL s line n ip).brute_force = s.brute_force := by
  unfold stepSQL; split <;> rfl

@[simp] theorem stepSQL_count : (stepSQL s line n ip).sql_injection_count =
    if sqlMatch line then s.sql_injection_count + 1 else s.sql_injection_count := by
  unfold stepSQL; split <;> simp_all

@[simp] theorem stepSQL_list : (stepSQL s line n ip).sql_injection =
    if sqlMatch line then s.sql_injection ++ [⟨n, ip, stripList line⟩]
    else s.sql_injection := by
  unfold stepSQL; split <;> simp_all

@[simp] theorem stepXSS_total : (stepXSS s line n ip).total_attacks = s.total_attacks := by
  unfold stepXSS; split <;> rfl

@[simp] theorem stepXSS_sqlc : (stepXSS s line n ip).sql_injection_count = s.sql_injection_count := by
  unfold stepXSS; split <;> rfl

@[simp] theorem stepXSS_ddosc : (stepXSS s line n ip).ddos_count = s.ddos_count := by
  unfold stepXSS; split <;> rfl

@[simp] theorem stepXSS_brutec : (stepXSS s line n ip).brute_force_count = s.brute_force_count := by
  unfold stepXSS; split <;> rfl

@[simp] theorem stepXSS_unique : (stepXSS s line n ip).unique_ips = s.unique_ips := by
  unfold stepXSS; split <;> rfl

@[simp] theorem stepXSS_freq : (stepXSS s line n ip).ip_frequency = s.ip_frequency := by
  unfold stepXSS; split <;> rfl

@[simp] theorem stepXSS_sql : (stepXSS s line n ip).sql_injection = s.sql_injection := by
  unfold stepXSS; split <;> rfl

@[simp] theorem stepXSS_ddos : (stepXSS s line n ip).ddos = s.ddos := by
  unfold stepXSS; split <;> rfl

@[simp] theorem stepXSS_brute : (stepXSS s line n ip).brute_force = s.brute_force := by
  unfold stepXSS; split <;> rfl

@[simp] theorem stepXSS_count : (stepXSS s line n ip).xss_count =
    if xssMatch line then s.xss_count + 1 else s.xss_count := by
  unfold stepXSS; split <;> simp_all

@[simp] theorem stepXSS_list : (stepXSS s line n ip).xss =
    if xssMatch line then s.xss ++ [⟨n, ip, stripList line⟩] else s.xss := by
  unfold stepXSS; split <;> simp_all

@[simp] theorem stepDDoS_total : (stepDDoS s n ip).total_attacks = s.total_attacks := by
  cases ip with
  | none => rfl
  | some a =>
    by_cases h : 100 < freqGet s.ip_frequency a ∧ ddosHasIP s.ddos a = false <;>
      simp [stepDDoS, h]

@[simp] theorem stepDDoS_sqlc : (stepDDoS s n ip).sql_injection_count = s.sql_injection_count := by
  cases ip with
  | none => rfl
  | some a =>
    by_cases h : 100 < freqGet s.ip_frequency a ∧ ddosHasIP s.ddos a = false <;>
      simp [stepDDoS, h]

@[simp] theorem stepDDoS_xssc : (stepDDoS s n ip).xss_count = s.xss_count := by
  cases ip with
  | none => rfl
  | some a =>
    by_cases h : 100 < freqGet s.ip_frequency a ∧ ddosHasIP s.ddos a = false <;>
      simp [stepDDoS, h]

@[simp] theorem stepDDoS_brutec : (stepDDoS s n ip).brute_force_count = s.brute_force_count := by
  cases ip with
  | none => rfl
  | some a =>
    by_cases h : 100 < freqGet s.ip_frequency a ∧ ddosHasIP s.ddos a = false <;>
      simp [stepDDoS, h]

@[simp] theorem stepDDoS_unique : (stepDDoS s n ip).unique_ips = s.unique_ips := by
  cases ip with
  | none => rfl
  | some a =>
    by_cases h : 100 < freqGet s.ip_frequency a ∧ ddosHasIP s.ddos a = false <;>
      simp [stepDDoS, h]

@[simp] theorem stepDDoS_freq : (stepDDoS s n ip).ip_frequency = s.ip_frequency := by
  cases ip with
  | none => rfl
  | some a =>
    by_cases h : 100 < freqGet s.ip_frequency a ∧ ddosHasIP s.ddos a = false <;>
      simp [stepDDoS, h]

@[simp] theorem stepDDoS_sql : (stepDDoS s n ip).sql_injection = s.sql_injection := by
  cases ip with
  | none => rfl
  | some a =>
    by_cases h : 100 < freqGet s.ip_frequency a ∧ ddosHasIP s.ddos a = false <;>
      simp [stepDDoS, h]

@[simp] theorem stepDDoS_xss : (stepDDoS s n ip).xss = s.xss := by
  cases ip with
  | none => rfl
  | some a =>
    by_cases h : 100 < freqGet s.ip_frequency a ∧ ddosHasIP s.ddos a = false <;>
      simp [stepDDoS, h]

@[simp] theorem stepDDoS_brute : (stepDDoS s n ip).brute_force = s.brute_force := by
  cases ip with
  | none => rfl
  | some a =>
    by_cases h : 100 < freqGet s.ip_frequency a ∧ ddosHasIP s.ddos a = false <;>
      simp [stepDDoS, h]

@[simp] theorem stepDDoS_count : (stepDDoS s n ip).ddos_count =
    match ip with
    | some a =>
      if 100 < freqGet s.ip_frequency a ∧ ddosHasIP s.ddos a = false then
        s.ddos_count + 1
      else s.ddos_count
    | none => s.ddos_count := by
  cases ip with
  | none => rfl
  | some a =>
    by_cases h : 100 < freqGet s.ip_frequency a ∧ ddosHasIP s.ddos a = false <;>
      simp [stepDDoS, h]

@[simp] theorem stepDDoS_list : (stepDDoS s n ip).ddos =
    match ip with
    | some a =>
      if 100 < freqGet s.ip_frequency a ∧ ddosHasIP s.ddos a = false then
        s.ddos ++ [⟨n, a, freqGet s.ip_frequency a⟩]
      else s.ddos
    | none => s.ddos := by
  cases ip with
  | none => rfl
  | some a =>
    by_cases h : 100 < freqGet s.ip_frequency a ∧ ddosHasIP s.ddos a = false <;>
      simp [stepDDoS, h]

@[simp] theorem stepBrute_total : (stepBrute s line n ip).total_attacks = s.total_attacks := by
  unfold stepBrute; split <;> rfl

@[simp] theorem stepBrute_sqlc : (stepBrute s line n ip).sql_injection_count = s.sql_injection_count := by
  unfold stepBrute; split <;> rfl

@[simp] theorem stepBrute_xssc : (stepBrute s line n ip).xss_count = s.xss_count := by
  unfold stepBrute; split <;> rfl

@[simp] theorem stepBrute_ddosc : (stepBrute s line n ip).ddos_count = s.ddos_count := by
  unfold stepBrute; split <;> rfl

@[simp] theorem stepBrute_unique : (stepBrute s line n ip).unique_ips = s.unique_ips := by
  unfold stepBrute; split <;> rfl

@[simp] theorem stepBrute_freq : (stepBrute s line n ip).ip_frequency = s.ip_frequency := by
  unfold stepBrute; split <;> rfl

@[simp] theorem stepBrute_sql : (stepBrute s line n ip).sql_injection = s.sql_injection := by
  unfold stepBrute; split <;> rfl

@[simp] theorem stepBrute_xss : (stepBrute s line n ip).xss = s.xss := by
  unfold stepBrute; split <;> rfl

@[simp] theorem stepBrute_ddos : (stepBrute s line n ip).ddos = s.ddos := by
  unfold stepBrute; split <;> rfl

@[simp] theorem stepBrute_count : (stepBrute s line n ip).brute_force_count =
    if bruteMatch line then s.brute_force_count + 1 else s.brute_force_count := by
  unfold stepBrute; split <;> simp_all

@[simp] theorem stepBrute_list : (stepBrute s line n ip).brute_force =
    if bruteMatch line then s.brute_force ++ [⟨n, ip, stripList line⟩]
    else s.brute_force := by
  unfold stepBrute; split <;> simp_all

end StepLemmas

/-! ### Field-action lemmas for a whole `analyze_line` call -/

section LineLemmas

variable (s : AnalyzerState) (line : List Char) (n : Nat)

theorem al_total : (analyze_line s line n).total_attacks = s.total_attacks := by
  simp [analyze_line]

theorem al_unique : (analyze_line s line n).unique_ips =
    match findIP line with
    | some a => addUnique s.unique_ips a
    | none => s.unique_ips := by
  cases hip : findIP line <;> simp [analyze_line, hip]

theorem al_freq : (analyze_line s line n).ip_frequency =
    match findIP line with
    | some a => freqInc s.ip_frequency a
    | none => s.ip_frequency := by
  cases hip : findIP line <;> simp [analyze_line, hip]

theorem al_sql_count : (analyze_line s line n).sql_injection_count =
    if sqlMatch line then s.sql_injection_count + 1 else s.sql_injection_count := by
  simp [analyze_line]

theorem al_sql_list : (analyze_line s line n).sql_injection =
    if sqlMatch line then s.sql_injection ++ [⟨n, findIP line, stripList line⟩]
    else s.sql_injection := by
  simp [analyze_line]

theorem al_xss_count : (analyze_line s line n).xss_count =
    if xssMatch line then s.xss_count + 1 else s.xss_count := by
  simp [analyze_line]

theorem al_xss_list : (analyze_line s line n).xss =
    if xssMatch line then s.xss ++ [⟨n, findIP line, stripList line⟩] else s.xss := by
  simp [analyze_line]

theorem al_brute_count : (analyze_line s line n).brute_force_count =
    if bruteMatch line then s.brute_force_count + 1 else s.brute_force_count := by
  simp [analyze_line]

theorem al_brute_list : (analyze_line s line n).brute_force =
    if bruteMatch line then s.brute_force ++ [⟨n, findIP line, stripList line⟩]
    else s.brute_force := by
  simp [analyze_line]

theorem al_ddos_count : (analyze_line s line n).ddos_count =
    match findIP line with
    | some a =>
      if 100 < freqGet (freqInc s.ip_frequency a) a ∧ ddosHasIP s.ddos a = false then
        s.ddos_count + 1
      else s.ddos_count
    | none => s.ddos_count := by
  cases hip : findIP line <;> simp [analyze_line, hip]

theorem al_ddos_list : (analyze_line s line n).ddos =
    match findIP line with
    | some a =>
      if 100 < freqGet (freqInc s.ip_frequency a) a ∧ ddosHasIP s.ddos a = false then
        s.ddos ++ [⟨n, a, freqGet (freqInc s.ip_frequency a) a⟩]
      else s.ddos
    | none => s.ddos := by
  cases hip : findIP line <;> simp [analyze_line, hip]

end LineLemmas

/-! ### The same action lemmas specialised on the extraction outcome -/

section LineCases

variable (s : AnalyzerState) (line : List Char) (n : Nat) (a : List Char)

theorem al_unique_none (hip : findIP line = none) :
    (analyze_line s line n).unique_ips = s.unique_ips := by
  rw [al_unique, hip]

theorem al_unique_some (hip : findIP line = some a) :
    (analyze_line s line n).unique_ips = addUnique s.unique_ips a := by
  rw [al_unique, hip]

theorem al_freq_none (hip : findIP line = none) :
    (analyze_line s line n).ip_frequency = s.ip_frequency := by
  rw [al_freq, hip]

theorem al_freq_some (hip : findIP line = some a) :
    (analyze_line s line n).ip_frequency = freqInc s.ip_frequency a := by
  rw [al_freq, hip]

theorem al_ddos_count_none (hip : findIP line = none) :
    (analyze_line s line n).ddos_count = s.ddos_count := by
  rw [al_ddos_count, hip]

theorem al_ddos_count_some (hip : findIP line = some a) :
    (analyze_line s line n).ddos_count =
      if 100 < freqGet (freqInc s.ip_frequency a) a ∧ ddosHasIP s.ddos a = false
      then s.ddos_count + 1 else s.ddos_count := by
  rw [al_ddos_count, hip]

theorem al_ddos_list_none (hip : findIP line = none) :
    (analyze_line s line n).ddos = s.ddos := by
  rw [al_ddos_list, hip]

theorem al_ddos_list_some (hip : findIP line = some a) :
    (analyze_line s line n).ddos =
      if 100 < freqGet (freqInc s.ip_frequency a) a ∧ ddosHasIP s.ddos a = false
      then s.ddos ++ [⟨n, a, freqGet (freqInc s.ip_frequency a) a⟩] else s.ddos := by
  rw [al_ddos_list, hip]

end LineCases

/-! ### Frequency-table, unique-set and ddos-list helper lemmas -/

theorem freqGet_freqInc_self (t : List (List Char × Nat)) (k : List Char) :
    freqGet (freqInc t k) k = freqGet t k + 1 := by
  induction t with
  | nil => simp [freqInc, freqGet]
  | cons p t ih =>
    obtain ⟨k', v⟩ := p
    by_cases h : k' = k <;> simp [freqInc, freqGet, h, ih]

theorem freqGet_freqInc_ne (t : List (List Char × Nat)) (k b : List Char)
    (hne : b ≠ k) : freqGet (freqInc t k) b = freqGet t b := by
  induction t with
  | nil => simp [freqInc, freqGet, Ne.symm hne]
  | cons p t ih =>
    obtain ⟨k', v⟩ := p
    by_cases h : k' = k
    · subst h
      have hkb : ¬ k' = b := fun he => hne he.symm
      simp [freqInc, freqGet, hkb]
    · by_cases h' : k' = b
      · subst h'
        simp [freqInc, freqGet, h]
      · simp [freqInc, freqGet, h, h', ih]

theorem map_fst_freqInc (t : List (List Char × Nat)) (k : List Char) :
    (freqInc t k).map Prod.fst =
      if k ∈ t.map Prod.fst then t.map Prod.fst else t.map Prod.fst ++ [k] := by
  induction t with
  | nil => simp [freqInc]
  | cons p t ih =>
    obtain ⟨k', v⟩ := p
    by_cases h : k' = k
    · simp [freqInc, h]
    · simp only [freqInc, if_neg h, List.map_cons, ih, List.mem_cons]
      have : ¬ k = k' := fun hk => h hk.symm
      by_cases hk : k ∈ t.map Prod.fst <;> simp [hk, this]

theorem length_freqInc (t : List (List Char × Nat)) (k : List Char) :
    (freqInc t k).length =
      if k ∈ t.map Prod.fst then t.length else t.length + 1 := by
  have hlen : (freqInc t k).length = ((freqInc t k).map Prod.fst).length := by
    simp
  rw [hlen, map_fst_freqInc]
  split <;> simp

theorem mem_addUnique (l : List (List Char)) (k a : List Char) :
    a ∈ addUnique l k ↔ a ∈ l ∨ a = k := by
  by_cases h : k ∈ l
  · simp only [addUnique, if_pos h]
    constructor
    · exact fun h' => Or.inl h'
    · rintro (h' | rfl)
      · exact h'
      · exact h
  · simp [addUnique, h]

theorem nodup_append_single {α : Type} (l : List α) (a : α) (h : l.Nodup)
    (ha : a ∉ l) : (l ++ [a]).Nodup := by
  simp [List.nodup_append, h, ha]

theorem nodup_addUnique (l : List (List Char)) (k : List Char) (h : l.Nodup) :
    (addUnique l k).Nodup := by
  by_cases hk : k ∈ l
  · simpa [addUnique, hk] using h
  · simp only [addUnique, if_neg hk]
    exact nodup_append_single l k h hk

theorem length_addUnique (l : List (List Char)) (k : List Char) :
    (addUnique l k).length = if k ∈ l then l.length else l.length + 1 := by
  unfold addUnique; split <;> simp

theorem ddosHasIP_append (l : List DEvent) (e : DEvent) (b : List Char) :
    ddosHasIP (l ++ [e]) b = (ddosHasIP l b || decide (e.ip = b)) := by
  simp [ddosHasIP]

theorem ddosHasIP_eq_mem (l : List DEvent) (b : List Char) :
    ddosHasIP l b = true ↔ b ∈ l.map DEvent.ip := by
  simp [ddosHasIP, List.mem_map]

/-! ### The run invariant -/

/-- Invariant of every reachable analyzer state: counters agree with list
lengths, `total_attacks` is untouched before finalize, the unique-address set
and the frequency-table keys are duplicate-free with the same members and
sizes, the ddos list holds at most one entry per address, and an address is
latched in the ddos list exactly when its frequency has passed 100. -/
structure GoodState (s : AnalyzerState) : Prop where
  sqlLen : s.sql_injection_count = s.sql_injection.length
  xssLen : s.xss_count = s.xss.length
  ddosLen : s.ddos_count = s.ddos.length
  bruteLen : s.brute_force_count = s.brute_force.length
  totalZero : s.total_attacks = 0
  uniqNodup : s.unique_ips.Nodup
  keysNodup : (s.ip_frequency.map Prod.fst).Nodup
  uniqKeys : ∀ b, b ∈ s.unique_ips ↔ b ∈ s.ip_frequency.map Prod.fst
  lenEq : s.unique_ips.length = s.ip_frequency.length
  ddosNodup : (s.ddos.map DEvent.ip).Nodup
  ddosFreq : ∀ b, ddosHasIP s.ddos b = true ↔ 100 < freqGet s.ip_frequency b

theorem good_init : GoodState initState := by
  constructor <;> simp [initState, freqGet, ddosHasIP]

theorem good_step (s : AnalyzerState) (l : List Char) (n : Nat)
    (h : GoodState s) : GoodState (analyze_line s l n) := by
  obtain ⟨h1, h2, h3, h4, h5, h6, h7, h8, h9, h10, h11⟩ := h
  constructor
  case sqlLen => rw [al_sql_count, al_sql_list]; split <;> simp [h1]
  case xssLen => rw [al_xss_count, al_xss_list]; split <;> simp [h2]
  case ddosLen =>
    cases hip : findIP l with
    | none => rw [al_ddos_count_none _ _ _ hip, al_ddos_list_none _ _ _ hip]; exact h3
    | some a =>
      rw [al_ddos_count_some _ _ _ _ hip, al_ddos_list_some _ _ _ _ hip]
      split <;> simp [h3]
  case bruteLen => rw [al_brute_count, al_brute_list]; split <;> simp [h4]
  case totalZero => rw [al_total]; exact h5
  case uniqNodup =>
    cases hip : findIP l with
    | none => rw [al_unique_none _ _ _ hip]; exact h6
    | some a => rw [al_unique_some _ _ _ _ hip]; exact nodup_addUnique _ _ h6
  case keysNodup =>
    cases hip : findIP l with
    | none => rw [al_freq_none _ _ _ hip]; exact h7
    | some a =>
      rw [al_freq_some _ _ _ _ hip, map_fst_freqInc]
      split
      · exact h7
      · next hk => exact nodup_append_single _ _ h7 hk
  case uniqKeys =>
    intro b
    cases hip : findIP l with
    | none => rw [al_unique_none _ _ _ hip, al_freq_none _ _ _ hip]; exact h8 b
    | some a =>
      rw [al_unique_some _ _ _ _ hip, al_freq_some _ _ _ _ hip,
        mem_addUnique, map_fst_freqInc]
      by_cases hk : a ∈ s.ip_frequency.map Prod.fst
      · rw [if_pos hk]
        constructor
        · rintro (hb | rfl)
          · exact (h8 b).mp hb
          · exact hk
        · exact fun hb => Or.inl ((h8 b).mpr hb)
      · rw [if_neg hk]
        simp only [List.mem_append, List.mem_singleton, h8 b]
  case lenEq =>
    cases hip : findIP l with
    | none => rw [al_unique_none _ _ _ hip, al_freq_none _ _ _ hip]; exact h9
    | some a =>
      rw [al_unique_some _ _ _ _ hip, al_freq_some _ _ _ _ hip,
        length_addUnique, length_freqInc]
      by_cases ha : a ∈ s.unique_ips
      · rw [if_pos ha, if_pos ((h8 a).mp ha)]; exact h9
      · rw [if_neg ha, if_neg (fun hx => ha ((h8 a).mpr hx))]; simp [h9]
  case ddosNodup =>
    cases hip : findIP l with
    | none => rw [al_ddos_list_none _ _ _ hip]; exact h10
    | some a =>
      rw [al_ddos_list_some _ _ _ _ hip]
      split
      · next hg =>
        have hmem : a ∉ s.ddos.map DEvent.ip := by
          intro hm
          have := (ddosHasIP_eq_mem s.ddos a).mpr hm
          rw [hg.2] at this
          exact Bool.false_ne_true this
        simpa using nodup_append_single _ _ h10 hmem
      · exact h10
  case ddosFreq =>
    intro b
    cases hip : findIP l with
    | none =>
      rw [al_ddos_list_none _ _ _ hip, al_freq_none _ _ _ hip]; exact h11 b
    | some a =>
      rw [al_ddos_list_some _ _ _ _ hip, al_freq_some _ _ _ _ hip]
      by_cases hg : 100 < freqGet (freqInc s.ip_frequency a) a ∧
          ddosHasIP s.ddos a = false
      · rw [if_pos hg, ddosHasIP_append]
        by_cases hba : b = a
        · subst hba
          simp only [decide_eq_true_eq]
          constructor
          · intro _; exact hg.1
          · intro _; simp
        · rw [freqGet_freqInc_ne _ _ _ hba]
          have : ¬ (a = b) := fun hik => hba hik.symm
          simp only [this, decide_eq_true_eq, Bool.or_eq_true, false_or,
            decide_eq_false_iff_not]
          constructor
          · rintro (hb | hfalse)
            · exact (h11 b).mp hb
            · exact hfalse.elim
          · exact fun hb => Or.inl ((h11 b).mpr hb)
      · rw [if_neg hg]
        by_cases hba : b = a
        · subst hba
          rw [freqGet_freqInc_self]
          by_cases hh : ddosHasIP s.ddos b = true
          · have hf := (h11 b).mp hh
            simp only [hh, true_iff]
            omega
          · have hf : ddosHasIP s.ddos b = false := by
              revert hh; cases ddosHasIP s.ddos b <;> simp
            have hnot : ¬ 100 < freqGet s.ip_frequency b + 1 :=
              fun hlt => hg ⟨by rwa [freqGet_freqInc_self], hf⟩
            simp [hf, hnot]
        · rw [freqGet_freqInc_ne _ _ _ hba]
          exact h11 b

theorem good_runFrom (ls : List (List Char)) : ∀ (s : AnalyzerState) (n : Nat),
    GoodState s → GoodState (runFrom s n ls) := by
  induction ls with
  | nil => exact fun s n h => h
  | cons l ls ih => exact fun s n h => ih _ _ (good_step _ _ _ h)

theorem good_runLines (ls : List (List Char)) : GoodState (runLines ls) :=
  good_runFrom ls initState 0 good_init

/-! ### Characterisation of the matchers as decompositions -/

theorem chopLit_some (p : List Char) : ∀ (cs r : List Char),
    chopLit p cs = some r ↔ cs = p ++ r := by
  induction p with
  | nil => intro cs r; simp [chopLit]
  | cons p ps ih =>
    intro cs r
    cases cs with
    | nil => simp [chopLit]
    | cons c cs =>
      by_cases h : p = c
      · subst h
        simp [chopLit, ih]
      · simp only [chopLit, if_neg h, List.cons_append]
        constructor
        · intro hcon; exact Option.noConfusion hcon
        · intro he
          injection he with h1 h2
          exact absurd h1.symm h

theorem chopLit_isSome (p cs : List Char) :
    (chopLit p cs).isSome = true ↔ ∃ r, cs = p ++ r := by
  cases hc : chopLit p cs with
  | none =>
    simp only [Option.isSome_none, Bool.false_eq_true, false_iff]
    rintro ⟨r, rfl⟩
    rw [(chopLit_some p _ r).mpr rfl] at hc
    exact Option.noConfusion hc
  | some r =>
    simp only [Option.isSome_some, true_iff]
    exact ⟨r, (chopLit_some p cs r).mp hc⟩

theorem containsLit_iff (p : List Char) : ∀ cs : List Char,
    containsLit p cs = true ↔ ∃ a b, cs = a ++ p ++ b := by
  intro cs
  induction cs with
  | nil =>
    simp only [containsLit, chopLit_isSome]
    constructor
    · rintro ⟨r, hr⟩
      exact ⟨[], r, by simpa using hr⟩
    · rintro ⟨a, b, hab⟩
      have := hab.symm
      simp only [List.append_assoc, List.append_eq_nil] at this
      exact ⟨b, by simp [this.1, this.2.1, this.2.2]⟩
  | cons c cs ih =>
    simp only [containsLit, Bool.or_eq_true, chopLit_isSome, ih]
    constructor
    · rintro (⟨r, hr⟩ | ⟨a, b, rfl⟩)
      · exact ⟨[], r, by simpa using hr⟩
      · exact ⟨c :: a, b, by simp⟩
    · rintro ⟨a, b, hab⟩
      cases a with
      | nil => exact Or.inl ⟨b, by simpa using hab⟩
      | cons a0 as =>
        right
        rw [List.cons_append, List.cons_append] at hab
        injection hab with h1 h2
        exact ⟨as, b, h2⟩

theorem scanPos_iff (f : List Char → Bool) : ∀ cs : List Char,
    scanPos f cs = true ↔ ∃ a b, cs = a ++ b ∧ f b = true := by
  intro cs
  induction cs with
  | nil =>
    simp only [scanPos]
    constructor
    · intro h; exact ⟨[], [], rfl, h⟩
    · rintro ⟨a, b, hab, hb⟩
      have := hab.symm
      simp only [List.append_eq_nil] at this
      rw [this.2] at hb
      exact hb
  | cons c cs ih =>
    simp only [scanPos, Bool.or_eq_true, ih]
    constructor
    · rintro (h | ⟨a, b, rfl, hb⟩)
      · exact ⟨[], c :: cs, rfl, h⟩
      · exact ⟨c :: a, b, rfl, hb⟩
    · rintro ⟨a, b, hab, hb⟩
      cases a with
      | nil =>
        rw [List.nil_append] at hab
        exact Or.inl (by rw [hab]; exact hb)
      | cons a0 as =>
        rw [List.cons_append] at hab
        injection hab with h1 h2
        exact Or.inr ⟨as, b, h2, hb⟩

theorem mem_takeWhile_sat {α : Type} (f : α → Bool) : ∀ l : List α,
    ∀ c ∈ l.takeWhile f, f c = true := by
  intro l
  induction l with
  | nil => intro c hc; simp [List.takeWhile] at hc
  | cons a l ih =>
    intro c hc
    rw [List.takeWhile_cons] at hc
    by_cases ha : f a
    · rw [if_pos ha] at hc
      rcases List.mem_cons.mp hc with rfl | hc'
      · exact ha
      · exact ih c hc'
    · rw [if_neg ha] at hc
      simp at hc

theorem takeWhile_append_all (f : Char → Bool) : ∀ (w r : List Char),
    (∀ c ∈ w, f c = true) → (∀ c cs', r = c :: cs' → f c = false) →
    (w ++ r).takeWhile f = w ∧ (w ++ r).dropWhile f = r := by
  intro w
  induction w with
  | nil =>
    intro r _ hr
    cases r with
    | nil => simp
    | cons c cs' =>
      simp [List.takeWhile_cons, List.dropWhile_cons, hr c cs' rfl]
  | cons a w ih =>
    intro r hw hr
    have ha : f a = true := hw a (by simp)
    have := ih r (fun c hc => hw c (by simp [hc])) hr
    simp [List.takeWhile_cons, List.dropWhile_cons, ha, this.1, this.2]

theorem gapThen_iff (p cs : List Char) (c0 : Char) (p' : List Char)
    (hp : p = c0 :: p') (hc0 : isSpaceChar c0 = false) :
    gapThen p cs = true ↔
      ∃ w r, cs = w ++ p ++ r ∧ w ≠ [] ∧ ∀ c ∈ w, isSpaceChar c = true := by
  constructor
  · intro h
    rw [gapThen, Bool.and_eq_true] at h
    obtain ⟨h1, h2⟩ := h
    rcases (chopLit_isSome p _).mp h2 with ⟨r, hr⟩
    refine ⟨cs.takeWhile isSpaceChar, r, ?_, ?_, ?_⟩
    · conv_lhs => rw [← List.takeWhile_append_dropWhile (p := isSpaceChar) (l := cs)]
      rw [hr, List.append_assoc]
    · intro he
      rw [he] at h1
      simp at h1
    · exact mem_takeWhile_sat isSpaceChar cs
  · rintro ⟨w, r, rfl, hw, hall⟩
    have hhead : ∀ c cs', p ++ r = c :: cs' → isSpaceChar c = false := by
      intro c cs' he
      rw [hp, List.cons_append] at he
      injection he with he1 _
      rw [← he1]
      exact hc0
    have hds := takeWhile_append_all isSpaceChar w (p ++ r) hall hhead
    unfold gapThen
    rw [List.append_assoc, hds.1, hds.2]
    rw [Bool.and_eq_true]
    constructor
    · cases w with
      | nil => exact absurd rfl hw
      | cons c ws => simp
    · exact (chopLit_isSome p (p ++ r)).mpr ⟨r, rfl⟩

theorem dotStarThen_iff (p : List Char) (hp : p ≠ []) : ∀ cs : List Char,
    dotStarThen p cs = true ↔ ∃ m r, cs = m ++ p ++ r ∧ '\n' ∉ m := by
  intro cs
  induction cs with
  | nil =>
    cases p with
    | nil => exact absurd rfl hp
    | cons p0 ps =>
      simp only [dotStarThen, chopLit, Option.isSome_none, Bool.false_eq_true,
        false_iff]
      rintro ⟨m, r, hm, -⟩
      have := hm.symm
      simp at this
  | cons c cs ih =>
    simp only [dotStarThen, Bool.or_eq_true, Bool.and_eq_true, chopLit_isSome, ih]
    constructor
    · rintro (⟨r, hr⟩ | ⟨hc, m, r, rfl, hm⟩)
      · exact ⟨[], r, by simpa using hr, by simp⟩
      · have hcnl : ¬ c = '\n' := by simpa using hc
        refine ⟨c :: m, r, by simp, ?_⟩
        simp only [List.mem_cons, not_or]
        exact ⟨fun he => hcnl he.symm, hm⟩
    · rintro ⟨m, r, hmr, hm⟩
      cases m with
      | nil => exact Or.inl ⟨r, by simpa using hmr⟩
      | cons m0 ms =>
        rw [List.cons_append, List.cons_append] at hmr
        injection hmr with h1 h2
        right
        simp only [List.mem_cons, not_or] at hm
        constructor
        · subst h1; simpa using fun he => hm.1 he.symm
        · exact ⟨ms, r, h2, hm.2⟩

/-- Rewrites a literal-head alternative of the regex into a decomposition. -/
theorem litThen_iff (p : List Char) (F : List Char → Bool) (P : List Char → Prop)
    (hF : ∀ r, F r = true ↔ P r) (cs : List Char) :
    (match chopLit p cs with | some r => F r | none => false) = true ↔
      ∃ r, cs = p ++ r ∧ P r := by
  cases hc : chopLit p cs with
  | none =>
    simp only [Bool.false_eq_true, false_iff]
    rintro ⟨r, rfl, -⟩
    rw [(chopLit_some p _ r).mpr rfl] at hc
    exact Option.noConfusion hc
  | some rest =>
    have hcs := (chopLit_some p cs rest).mp hc
    simp only [hF rest]
    constructor
    · intro h; exact ⟨rest, hcs, h⟩
    · rintro ⟨r, hr, hP⟩
      have : rest = r := by
        rw [hcs] at hr
        exact List.append_cancel_left hr
      rw [this]
      exact hP

theorem sqlHit_iff (cs : List Char) : sqlHit cs = true ↔
    (∃ w r, cs = uStr ++ w ++ sStr ++ r ∧ w ≠ [] ∧ ∀ c ∈ w, isSpaceChar c = true) ∨
    (∃ m r, cs = sStr ++ m ++ fStr ++ r ∧ '\n' ∉ m) ∨
    (∃ w r, cs = dStr ++ w ++ tStr ++ r ∧ w ≠ [] ∧ ∀ c ∈ w, isSpaceChar c = true) ∨
    (∃ w, cs = dashStr ++ w ∧ ∀ c ∈ w, isSpaceChar c = true) := by
  have hu := litThen_iff uStr (gapThen sStr)
    (fun r => ∃ w r', r = w ++ sStr ++ r' ∧ w ≠ [] ∧ ∀ c ∈ w, isSpaceChar c = true)
    (fun r => gapThen_iff sStr r 's' "elect".toList rfl rfl) cs
  have hs := litThen_iff sStr (dotStarThen fStr)
    (fun r => ∃ m r', r = m ++ fStr ++ r' ∧ '\n' ∉ m)
    (fun r => dotStarThen_iff fStr (by simp [fStr]) r) cs
  have hd := litThen_iff dStr (gapThen tStr)
    (fun r => ∃ w r', r = w ++ tStr ++ r' ∧ w ≠ [] ∧ ∀ c ∈ w, isSpaceChar c = true)
    (fun r => gapThen_iff tStr r 't' "able".toList rfl rfl) cs
  have hdash := litThen_iff dashStr (fun r => r.all isSpaceChar)
    (fun r => ∀ c ∈ r, isSpaceChar c = true)
    (fun r => List.all_eq_true) cs
  unfold sqlHit
  rw [Bool.or_eq_true, Bool.or_eq_true, Bool.or_eq_true, hu, hs, hd, hdash]
  constructor
  · rintro (((⟨r, rfl, w, r', rfl, hw, hall⟩ | ⟨r, rfl, m, r', rfl, hm⟩) |
      ⟨r, rfl, w, r', rfl, hw, hall⟩) | ⟨r, hr, hall⟩)
    · exact Or.inl ⟨w, r', by simp, hw, hall⟩
    · exact Or.inr (Or.inl ⟨m, r', by simp, hm⟩)
    · exact Or.inr (Or.inr (Or.inl ⟨w, r', by simp, hw, hall⟩))
    · exact Or.inr (Or.inr (Or.inr ⟨r, hr, hall⟩))
  · rintro (⟨w, r, hcs, hw, hall⟩ | ⟨m, r, hcs, hm⟩ | ⟨w, r, hcs, hw, hall⟩ |
      ⟨w, hcs, hall⟩)
    · exact Or.inl (Or.inl (Or.inl ⟨w ++ sStr ++ r, by simpa [List.append_assoc] using hcs,
        w, r, by simp, hw, hall⟩))
    · exact Or.inl (Or.inl (Or.inr ⟨m ++ fStr ++ r, by simpa [List.append_assoc] using hcs,
        m, r, by simp, hm⟩))
    · exact Or.inl (Or.inr ⟨w ++ tStr ++ r, by simpa [List.append_assoc] using hcs,
        w, r, by simp, hw, hall⟩)
    · exact Or.inr ⟨w, hcs, hall⟩

/-- The SQL-injection condition in the words of the specification: the
(lower-cased) line contains "union", whitespace, "select"; or "select"
anywhere before "from" with no newline in between (same line); or "drop",
whitespace, "table"; or ends with "--" followed only by trailing
whitespace. -/
def sqlSpecMatch (line : List Char) : Prop :=
  (∃ a w b, lowerL line = a ++ uStr ++ w ++ sStr ++ b ∧ w ≠ [] ∧
    ∀ c ∈ w, isSpaceChar c = true) ∨
  (∃ a m b, lowerL line = a ++ sStr ++ m ++ fStr ++ b ∧ '\n' ∉ m) ∨
  (∃ a w b, lowerL line = a ++ dStr ++ w ++ tStr ++ b ∧ w ≠ [] ∧
    ∀ c ∈ w, isSpaceChar c = true) ∨
  (∃ a w, lowerL line = a ++ dashStr ++ w ∧ ∀ c ∈ w, isSpaceChar c = true)

theorem sqlMatch_iff_spec (line : List Char) :
    sqlMatch line = true ↔ sqlSpecMatch line := by
  unfold sqlMatch sqlSpecMatch
  generalize lowerL line = L
  rw [scanPos_iff]
  constructor
  · rintro ⟨a, b, rfl, hb⟩
    rcases (sqlHit_iff b).mp hb with ⟨w, r, rfl, hw, hall⟩ | ⟨m, r, rfl, hm⟩ |
      ⟨w, r, rfl, hw, hall⟩ | ⟨w, rfl, hall⟩
    · exact Or.inl ⟨a, w, r, by simp, hw, hall⟩
    · exact Or.inr (Or.inl ⟨a, m, r, by simp, hm⟩)
    · exact Or.inr (Or.inr (Or.inl ⟨a, w, r, by simp, hw, hall⟩))
    · exact Or.inr (Or.inr (Or.inr ⟨a, w, by simp, hall⟩))
  · rintro (⟨a, w, b, rfl, hw, hall⟩ | ⟨a, m, b, rfl, hm⟩ |
      ⟨a, w, b, rfl, hw, hall⟩ | ⟨a, w, rfl, hall⟩)
    · exact ⟨a, uStr ++ w ++ sStr ++ b, by simp,
        (sqlHit_iff _).mpr (Or.inl ⟨w, b, by simp, hw, hall⟩)⟩
    · exact ⟨a, sStr ++ m ++ fStr ++ b, by simp,
        (sqlHit_iff _).mpr (Or.inr (Or.inl ⟨m, b, by simp, hm⟩))⟩
    · exact ⟨a, dStr ++ w ++ tStr ++ b, by simp,
        (sqlHit_iff _).mpr (Or.inr (Or.inr (Or.inl ⟨w, b, by simp, hw, hall⟩)))⟩
    · exact ⟨a, dashStr ++ w, by simp,
        (sqlHit_iff _).mpr (Or.inr (Or.inr (Or.inr ⟨w, rfl, hall⟩)))⟩

/-! ### Shape of an extracted address -/

/-- A group of 1–3 decimal digits. -/
def digitsGroup (g : List Char) : Bool :=
  decide (1 ≤ g.length) && decide (g.length ≤ 3) && g.all Char.isDigit

/-- The IPv4-like shape of §3 of the spec: four dot-separated groups of 1–3
digits (no numeric-range validation). -/
def ipShape (t : List Char) : Prop :=
  ∃ g1 g2 g3 g4, t = g1 ++ '.' :: (g2 ++ '.' :: (g3 ++ '.' :: g4)) ∧
    digitsGroup g1 = true ∧ digitsGroup g2 = true ∧
    digitsGroup g3 = true ∧ digitsGroup g4 = true

theorem takeWhile_digitsGroup (cs : List Char)
    (h1 : 1 ≤ (cs.takeWhile Char.isDigit).length)
    (h3 : (cs.takeWhile Char.isDigit).length ≤ 3) :
    digitsGroup (cs.takeWhile Char.isDigit) = true := by
  unfold digitsGroup
  rw [Bool.and_eq_true, Bool.and_eq_true]
  refine ⟨⟨by simpa using h1, by simpa using h3⟩, ?_⟩
  rw [List.all_eq_true]
  exact mem_takeWhile_sat Char.isDigit cs

theorem groupDot_shape (cs g r : List Char) (h : groupDot cs = some (g, r)) :
    digitsGroup g = true := by
  unfold groupDot at h
  split at h
  · split at h
    · next hlen =>
      simp only [Option.some.injEq, Prod.mk.injEq] at h
      rw [← h.1]
      exact takeWhile_digitsGroup cs hlen.1 hlen.2
    · exact Option.noConfusion h
  · exact Option.noConfusion h

theorem lastGroup_shape (cs g : List Char) (h : lastGroup cs = some g) :
    digitsGroup g = true := by
  unfold lastGroup at h
  split at h
  · next hlen =>
    split at h
    · injection h with hg
      rw [← hg]
      exact takeWhile_digitsGroup cs hlen.1 hlen.2
    · split at h
      · exact Option.noConfusion h
      · injection h with hg
        rw [← hg]
        exact takeWhile_digitsGroup cs hlen.1 hlen.2
  · exact Option.noConfusion h

theorem ipAt_shape (cs t : List Char) (h : ipAt cs = some t) : ipShape t := by
  unfold ipAt at h
  split at h
  · exact Option.noConfusion h
  · next g1 r1 h1 =>
    split at h
    · exact Option.noConfusion h
    · next g2 r2 h2 =>
      split at h
      · exact Option.noConfusion h
      · next g3 r3 h3 =>
        split at h
        · exact Option.noConfusion h
        · next g4 h4 =>
          injection h with ht
          exact ⟨g1, g2, g3, g4, ht.symm, groupDot_shape cs g1 r1 h1,
            groupDot_shape r1 g2 r2 h2, groupDot_shape r2 g3 r3 h3,
            lastGroup_shape r3 g4 h4⟩

theorem ipSearch_shape (cs : List Char) : ∀ (prev : Option Char) (t : List Char),
    ipSearch prev cs = some t → ipShape t := by
  induction cs with
  | nil => intro prev t h; exact Option.noConfusion h
  | cons c cs ih =>
    intro prev t h
    unfold ipSearch at h
    split at h
    · split at h
      · next a hA =>
        injection h with ht
        rw [← ht]
        exact ipAt_shape (c :: cs) a hA
      · exact ih (some c) t h
    · exact ih (some c) t h

/-- Every address the extractor returns has the IPv4-like shape of §3. -/
theorem findIP_shape (line t : List Char) (h : findIP line = some t) :
    ipShape t :=
  ipSearch_shape line none t h

/-! ### Concrete scenario lines -/

/-- The spec scenario line `admin' OR 1=1 -- ` (with its trailing space). -/
def scLine : List Char := "admin".toList ++ ['\''] ++ " OR 1=1 -- ".toList

/-- Its trimmed content `admin' OR 1=1 --`. -/
def scContent : List Char := "admin".toList ++ ['\''] ++ " OR 1=1 --".toList

/-- A line matching both the brute-force and the XSS pattern. -/
def bothLine : List Char := "failed login javascript:".toList

/-- A line whose only address-like text embeds a four-digit run. -/
def noIPLine : List Char := "request 1234.56.7.8 end".toList

/-- A stream used to instantiate the determinism theorem. -/
def demoStream : List (List Char) := [bothLine, "10.0.0.5 ok".toList]

/-- What the ddos side effect of one `analyze_line` call on a reachable state
does to the ddos list, in the spec's terms: the event is appended exactly when
the address's running count reaches 101, i.e. first strictly exceeds 100. -/
def ddosStepSpec (s : AnalyzerState) (l : List Char) (n : Nat) : List DEvent :=
  match findIP l with
  | some a =>
    if freqGet s.ip_frequency a = 100 then s.ddos ++ [⟨n, a, 101⟩] else s.ddos
  | none => s.ddos

/-! ### The claims -/

/-- C1: for every finite stream, the report's `total_attacks` equals the sum
of the four category counts, is recomputed at finalize time only (the running
state's `total_attacks` stays 0 throughout the stream), and also equals the
sum of the lengths of the four returned event lists. -/
theorem c1_total_attacks_finalize_sum (ls : List (List Char)) :
    (analyze_file ls).stats.total_attacks =
      (analyze_file ls).stats.sql_injection_count +
        (analyze_file ls).stats.xss_count +
        (analyze_file ls).stats.ddos_count +
        (analyze_file ls).stats.brute_force_count ∧
    (analyze_file ls).stats.total_attacks =
      (analyze_file ls).sql_injection.length + (analyze_file ls).xss.length +
        (analyze_file ls).ddos.length + (analyze_file ls).brute_force.length ∧
    (runLines ls).total_attacks = 0 := by
  have hg := good_runLines ls
  refine ⟨rfl, ?_, hg.totalZero⟩
  show (runLines ls).sql_injection_count + (runLines ls).xss_count +
      (runLines ls).ddos_count + (runLines ls).brute_force_count =
    (runLines ls).sql_injection.length + (runLines ls).xss.length +
      (runLines ls).ddos.length + (runLines ls).brute_force.length
  rw [hg.sqlLen, hg.xssLen, hg.ddosLen, hg.bruteLen]

/-- C2: in every reachable state the ddos list holds at most one entry per
address, and one further `analyze_line` call appends a ddos event exactly when
the extracted address's stored count is 100 — so the appended event carries
this line's number and the running count 101, the first value strictly greater
than 100; for an address whose count is already past 100 (which is latched in
the list) or at most 99, the list is unchanged. -/
theorem c2_ddos_latch (ls : List (List Char)) (l : List Char) (n : Nat) :
    ((runLines ls).ddos.map DEvent.ip).Nodup ∧
    (analyze_line (runLines ls) l n).ddos = ddosStepSpec (runLines ls) l n := by
  have hg := good_runLines ls
  refine ⟨hg.ddosNodup, ?_⟩
  cases hip : findIP l with
  | none =>
    rw [al_ddos_list_none _ _ _ hip]
    simp only [ddosStepSpec, hip]
  | some a =>
    rw [al_ddos_list_some _ _ _ _ hip, freqGet_freqInc_self]
    simp only [ddosStepSpec, hip]
    by_cases hf : freqGet (runLines ls).ip_frequency a = 100
    · have hlat : ddosHasIP (runLines ls).ddos a = false := by
        cases hh : ddosHasIP (runLines ls).ddos a
        · rfl
        · have := (hg.ddosFreq a).mp hh
          omega
      rw [if_pos ⟨by omega, hlat⟩, if_pos hf, hf]
    · have hguard : ¬ (100 < freqGet (runLines ls).ip_frequency a + 1 ∧
          ddosHasIP (runLines ls).ddos a = false) := by
        rintro ⟨hlt, hfalse⟩
        have hgt : 100 < freqGet (runLines ls).ip_frequency a := by omega
        rw [(hg.ddosFreq a).mpr hgt] at hfalse
        exact Bool.noConfusion hfalse
      rw [if_neg hguard, if_neg hf]

/-- C3: the report's `unique_ips` equals the number of distinct keys of the
returned `ip_frequency` table (whose keys are duplicate-free), and after any
number of `analyze_line` calls the recorded unique addresses are exactly the
key set of the frequency table. -/
theorem c3_unique_ips_eq_freq_keys (ls : List (List Char)) :
    (analyze_file ls).stats.unique_ips =
      ((analyze_file ls).ip_frequency.map Prod.fst).length ∧
    ((analyze_file ls).ip_frequency.map Prod.fst).Nodup ∧
    ∀ b, b ∈ (runLines ls).unique_ips ↔
      b ∈ (runLines ls).ip_frequency.map Prod.fst := by
  have hg := good_runLines ls
  refine ⟨?_, hg.keysNodup, hg.uniqKeys⟩
  show (runLines ls).unique_ips.length =
    ((runLines ls).ip_frequency.map Prod.fst).length
  rw [List.length_map]
  exact hg.lenEq

/-- C4: a line is classified as SQL injection iff, case-insensitively, it
contains "union" + whitespace + "select", or "select" anywhere before "from"
on the same line, or "drop" + whitespace + "table", or ends with "--"
followed only by trailing whitespace; on a match exactly one event is
appended (content = trimmed line, address = the extracted one, none if
absent) and the counter is incremented by exactly 1; in particular
`admin' OR 1=1 -- ` yields one SQL-injection event with a null address. -/
theorem c4_sql_classification (line : List Char) (s : AnalyzerState) (n : Nat) :
    (sqlMatch line = true ↔ sqlSpecMatch line) ∧
    ((analyze_line s line n).sql_injection =
      if sqlMatch line then s.sql_injection ++ [⟨n, findIP line, stripList line⟩]
      else s.sql_injection) ∧
    ((analyze_line s line n).sql_injection_count =
      if sqlMatch line then s.sql_injection_count + 1
      else s.sql_injection_count) ∧
    (analyze_line initState scLine 1).sql_injection = [⟨1, none, scContent⟩] ∧
    (analyze_line initState scLine 1).sql_injection_count = 1 :=
  ⟨sqlMatch_iff_spec line, al_sql_list s line n, al_sql_count s line n,
    by decide, by decide⟩

/-- C5: per line at most one address is extracted (an `Option`), it always
has the IPv4-like shape of four dot-separated groups of 1–3 digits (no range
validation — `999.999.999.999` is extracted), and the frequency table gets
exactly that address bumped by exactly 1, independently of every pattern
check; when no address is found the table is untouched. -/
theorem c5_address_frequency (line : List Char) (s : AnalyzerState) (n : Nat) :
    ((analyze_line s line n).ip_frequency =
      match findIP line with
      | some a => freqInc s.ip_frequency a
      | none => s.ip_frequency) ∧
    (∀ b, freqGet (analyze_line s line n).ip_frequency b =
      match findIP line with
      | some a => if b = a then freqGet s.ip_frequency b + 1
                  else freqGet s.ip_frequency b
      | none => freqGet s.ip_frequency b) ∧
    (findIP line).elim True ipShape ∧
    findIP ("host 999.999.999.999 denied".toList) =
      some ("999.999.999.999".toList) := by
  refine ⟨al_freq s line n, ?_, ?_, by decide⟩
  · intro b
    cases hip : findIP line with
    | none => rw [al_freq_none _ _ _ hip]
    | some a =>
      rw [al_freq_some _ _ _ _ hip]
      show freqGet (freqInc s.ip_frequency a) b =
        if b = a then freqGet s.ip_frequency b + 1 else freqGet s.ip_frequency b
      by_cases hb : b = a
      · subst hb
        rw [if_pos rfl, freqGet_freqInc_self]
      · rw [if_neg hb, freqGet_freqInc_ne _ _ _ hb]
  · cases hip : findIP line with
    | none => exact trivial
    | some a => exact findIP_shape line a hip

/-- C6: after any stream of `analyze_line` calls (hence in every report) each
category counter equals the length of its event list. -/
theorem c6_counts_eq_lengths (ls : List (List Char)) :
    (runLines ls).sql_injection_count = (runLines ls).sql_injection.length ∧
    (runLines ls).xss_count = (runLines ls).xss.length ∧
    (runLines ls).ddos_count = (runLines ls).ddos.length ∧
    (runLines ls).brute_force_count = (runLines ls).brute_force.length :=
  let hg := good_runLines ls
  ⟨hg.sqlLen, hg.xssLen, hg.ddosLen, hg.bruteLen⟩

/-- C7: the per-line checks are independent and non-exclusive — each
category's list depends only on its own predicate — and the scenario line
containing both "failed login" and "javascript:" increments both
`brute_force_count` and `xss_count` by 1 with the same line number. -/
theorem c7_checks_independent (line : List Char) (s : AnalyzerState) (n : Nat) :
    ((analyze_line s line n).xss =
      if xssMatch line then s.xss ++ [⟨n, findIP line, stripList line⟩]
      else s.xss) ∧
    ((analyze_line s line n).brute_force =
      if bruteMatch line then s.brute_force ++ [⟨n, findIP line, stripList line⟩]
      else s.brute_force) ∧
    ((analyze_line s line n).xss_count =
      if xssMatch line then s.xss_count + 1 else s.xss_count) ∧
    ((analyze_line s line n).brute_force_count =
      if bruteMatch line then s.brute_force_count + 1
      else s.brute_force_count) ∧
    xssMatch bothLine = true ∧ bruteMatch bothLine = true ∧
    (analyze_line initState bothLine 7).xss = [⟨7, none, bothLine⟩] ∧
    (analyze_line initState bothLine 7).brute_force = [⟨7, none, bothLine⟩] ∧
    (analyze_line initState bothLine 7).xss_count = 1 ∧
    (analyze_line initState bothLine 7).brute_force_count = 1 :=
  ⟨al_xss_list s line n, al_brute_list s line n, al_xss_count s line n,
    al_brute_count s line n, by decide, by decide, by decide, by decide,
    by decide, by decide⟩

/-- C8: the engine's error surface is empty — `analyze_line` is a total
function producing a state for every text line and every starting state, and
the empty stream terminates with the all-zero report: every stat 0, all four
event lists empty, empty frequency table. -/
theorem c8_total_and_empty_stream (s : AnalyzerState) (line : List Char)
    (n : Nat) :
    (∃ s', analyze_line s line n = s') ∧
    analyze_file [] = ⟨⟨0, 0, 0, 0, 0, 0⟩, [], [], [], [], []⟩ :=
  ⟨⟨analyze_line s line n, rfl⟩, rfl⟩

/-- C9: the analysis is deterministic — two fresh analyzer instances fed the
same stream produce reports with equal stats, equal frequency tables and
element-wise equal event lists (the model takes no input besides the lines:
no clock, randomness or cross-run state exists). -/
theorem c9_deterministic (ls₁ ls₂ : List (List Char)) (h : ls₁ = ls₂) :
    (analyze_file ls₁).stats = (analyze_file ls₂).stats ∧
    (analyze_file ls₁).ip_frequency = (analyze_file ls₂).ip_frequency ∧
    (analyze_file ls₁).sql_injection = (analyze_file ls₂).sql_injection ∧
    (analyze_file ls₁).xss = (analyze_file ls₂).xss ∧
    (analyze_file ls₁).ddos = (analyze_file ls₂).ddos ∧
    (analyze_file ls₁).brute_force = (analyze_file ls₂).brute_force ∧
    analyze_file ls₁ = analyze_file ls₂ := by
  subst h
  exact ⟨rfl, rfl, rfl, rfl, rfl, rfl, rfl⟩

/-- Witness for C9 at a concrete stream. -/
theorem c9_deterministic_witness :
    (analyze_file demoStream).stats = (analyze_file demoStream).stats ∧
    (analyze_file demoStream).ip_frequency = (analyze_file demoStream).ip_frequency ∧
    (analyze_file demoStream).sql_injection = (analyze_file demoStream).sql_injection ∧
    (analyze_file demoStream).xss = (analyze_file demoStream).xss ∧
    (analyze_file demoStream).ddos = (analyze_file demoStream).ddos ∧
    (analyze_file demoStream).brute_force = (analyze_file demoStream).brute_force ∧
    analyze_file demoStream = analyze_file demoStream :=
  c9_deterministic demoStream demoStream rfl

/-- C10: word boundaries are required around the IPv4-shaped token: on the
line containing `1234.56.7.8` no address at all is extracted (not even a
truncated one), so the frequency table and the unique-address set are left
unchanged by that line. -/
theorem c10_word_boundary_no_truncation (s : AnalyzerState) (n : Nat) :
    findIP noIPLine = none ∧
    (analyze_line s noIPLine n).ip_frequency = s.ip_frequency ∧
    (analyze_line s noIPLine n).unique_ips = s.unique_ips :=
  ⟨by decide, al_freq_none s noIPLine n (by decide),
    al_unique_none s noIPLine n (by decide)⟩

end LogfileAnalyzer
